import Mathlib

/-!
Verification of the contiv node-ID allocator
(`plugins/contiv/node_id_allocator.go`).

The Go module manages allocation and deallocation of a unique numeric
identifier per node, coordinated through an etcd store.  The shallow
embedding below translates each Go function into a Lean definition.
Go strings are modelled as `List Char`; the etcd broker is external to
the module, so its responses (`ListValues`, `ListKeys`, `PutIfNotExists`,
`Delete`) are supplied as explicit response data, and every store
interaction performed by a call is recorded in an operation trace.
-/

/-- Errors produced by the Go module.  `invalidKey`, `unableToAllocateID`
and `noIDallocated` are the module's own sentinel errors
(`errInvalidKey`, `errUnableToAllocateID`, `errNoIDallocated`);
`parseSyntaxError` and `parseRangeError` model the two failure modes of
`strconv.Atoi`; `storeFailure` models an arbitrary error returned by the
etcd client (indexed by a code so distinct failures stay distinct). -/
inductive GoError where
  | invalidKey
  | unableToAllocateID
  | noIDallocated
  | parseSyntaxError
  | parseRangeError
  | storeFailure (code : Nat)
deriving DecidableEq, Repr

/-- The stored record `uid.Identifier` (proto message with fields
`Name string` and `Id uint32`). -/
structure Identifier where
  name : String
  id : Nat
deriving DecidableEq, Repr

/-- The Go constant `allocatedIDsKeyPrefix = "allocatedIDs/"`, as a
character list (Go strings are modelled as `List Char`). -/
def allocatedIDsKey : List Char := "allocatedIDs/".data

/-- The Go constant `maxAttempts = 10`. -/
def maxAttempts : Nat := 10

/-- Numeric value of a decimal digit character (`c - '0'` in Go). -/
def charVal (c : Char) : Nat := c.toNat - 48

/-- Value of a big-endian decimal digit string, folded left to right the
way `strconv.ParseUint` accumulates digits. -/
def digitsVal (l : List Char) : Nat := l.foldl (fun acc c => acc * 10 + charVal c) 0

/-- The 64-bit range check of `strconv.Atoi`: a parsed value outside
the signed 64-bit `int` range is a range error. -/
def atoiRange (v : Int) : Except GoError Int :=
  if v < -((2 : Int) ^ 63) || (2 : Int) ^ 63 ≤ v then .error .parseRangeError
  else .ok v

/-- Core of `strconv.Atoi` after the optional sign has been consumed:
the remaining characters must be a non-empty run of ASCII digits
(otherwise a syntax error), and the signed value is then
range-checked. -/
def atoiCore (neg : Bool) (ds : List Char) : Except GoError Int :=
  if ds.isEmpty || ds.any (fun c => !c.isDigit) then .error .parseSyntaxError
  else atoiRange (if neg then -(digitsVal ds : Int) else (digitsVal ds : Int))

/-- `strconv.Atoi`: optional leading `+` or `-`, then decimal digits,
64-bit range-checked. -/
def atoi (s : List Char) : Except GoError Int :=
  match s with
  | '-' :: ds => atoiCore true ds
  | '+' :: ds => atoiCore false ds
  | ds => atoiCore false ds

/-- Go `extractIndexFromKey`: if the key starts with the
`allocatedIDs/` namespace, strip that occurrence (under the
`strings.HasPrefix` guard, `strings.Replace(key, prefix, "", 1)` removes
exactly the leading prefix) and parse the remainder with
`strconv.Atoi`; otherwise fail with `errInvalidKey`. -/
def extractIndexFromKey (key : List Char) : Except GoError Int :=
  if allocatedIDsKey.isPrefixOf key then atoi (key.drop allocatedIDsKey.length)
  else .error .invalidKey

/-- Little-endian decimal digits of `n`, with explicit fuel (the Go
side is `strconv.FormatUint`, which always terminates; fuel `n + 1`
is always sufficient since `n < 10 ^ (n + 1)`). -/
def decimalRev : Nat → Nat → List Char
  | 0, _ => []
  | f + 1, n => if n < 10 then [Nat.digitChar n] else Nat.digitChar (n % 10) :: decimalRev f (n / 10)

/-- Big-endian decimal form of a natural number, as produced by
`strconv.FormatUint(n, 10)`. -/
def natToDecimal (n : Nat) : List Char := (decimalRev (n + 1) n).reverse

/-- Decimal form of a Go integer (sign followed by the decimal form of
the magnitude), as produced by `strconv.FormatInt`/`Itoa`. -/
def intDecimal (n : Int) : List Char :=
  if n < 0 then '-' :: natToDecimal n.natAbs else natToDecimal n.toNat

/-- Go `createKey`: the namespace followed by the decimal form of the
`uint32` index. -/
def createKey (index : Nat) : List Char := allocatedIDsKey ++ natToDecimal index

/-- Helper loop of `findFirstAvailableIndex`: Go starts `res` at 1 and,
for each element `v` of the slice in order, increments `res` when
`res == v` and breaks out of the loop otherwise. -/
def ffaLoop (res : Int) : List Int → Int
  | [] => res
  | v :: rest => if res = v then ffaLoop (res + 1) rest else res

/-- Go `findFirstAvailableIndex`: the smallest int (starting from 1)
that is not assigned to a node, by a linear scan of the sorted slice. -/
def findFirstAvailableIndex (ids : List Int) : Int := ffaLoop 1 ids

/-- The list `r, r+1, ..., r+n-1` of `n` consecutive integers. -/
def consecFrom (r : Int) : Nat → List Int
  | 0 => []
  | n + 1 => r :: consecFrom (r + 1) n

/-- In-memory state of an `idAllocator` instance: the `allocated` flag
and the `ID` field (a `uint32`).  The `serviceLabel` is fixed at
construction and passed separately. -/
structure AllocatorMem where
  allocated : Bool
  ID : Nat
deriving DecidableEq, Repr

/-- One store interaction performed by the module, for the operation
trace: the `ListValues` scan of `findExistingEntry`, the `ListKeys`
scan of `listAllIDs`, a `PutIfNotExists` of a candidate key, or a
`Delete` of an id's key. -/
inductive StoreOp where
  | listValues
  | listKeys
  | put (id : Nat)
  | delete (id : Nat)
deriving DecidableEq, Repr

/-- Whether a trace entry is a conditional write. -/
def isPutOp : StoreOp → Bool
  | .put _ => true
  | _ => false

/-- Whether a trace entry is a `ListKeys` enumeration. -/
def isListKeysOp : StoreOp → Bool
  | .listKeys => true
  | _ => false

/-- Go `findExistingEntry`, inner iterator loop: each element is the
outcome of `kv.GetValue` on one listed key-value pair (an element-level
error models a `GetValue` failure, which aborts the scan); the loop
stops at the first record whose `Name` equals the service label. -/
def findExistingEntryItems (label : String) : List (Except GoError Identifier) → Except GoError (Option Identifier)
  | [] => .ok none
  | .error e :: _ => .error e
  | .ok item :: rest =>
    if item.name = label then .ok (some item) else findExistingEntryItems label rest

/-- Go `findExistingEntry`: `broker.ListValues(allocatedIDsKeyPrefix)`
either fails outright or yields a sequence of key-value pairs, which
the inner loop scans for the service label. -/
def findExistingEntry (label : String) (lv : Except GoError (List (Except GoError Identifier))) : Except GoError (Option Identifier) :=
  match lv with
  | .error e => .error e
  | .ok items => findExistingEntryItems label items

/-- Go `listAllIDs`, inner iterator loop: extract the id from every
listed key, aborting with the first extraction error. -/
def listAllIDsLoop : List (List Char) → Except GoError (List Int)
  | [] => .ok []
  | key :: rest =>
    match extractIndexFromKey key with
    | .error e => .error e
    | .ok id =>
      match listAllIDsLoop rest with
      | .error e => .error e
      | .ok ids => .ok (id :: ids)

/-- Go `listAllIDs`: `broker.ListKeys(allocatedIDsKeyPrefix)` either
fails outright or yields the keys currently under the namespace. -/
def listAllIDs (lk : Except GoError (List (List Char))) : Except GoError (List Int) :=
  match lk with
  | .error e => .error e
  | .ok keys => listAllIDsLoop keys

/-- Store responses consumed by one iteration of `getID`'s allocation
loop: the `ListKeys` response and the `PutIfNotExists` response
(`Except` error for a failed call, `.ok false` for a lost
create-if-absent race, `.ok true` for a won one). -/
structure IterResp where
  keysRes : Except GoError (List (List Char))
  putRes : Except GoError Bool

/-- Store responses consumed by one `getID` call: the `ListValues`
response used by the discovery pass, and the per-iteration responses
of the allocation loop. -/
structure CallOracle where
  lvRes : Except GoError (List (Except GoError Identifier))
  iters : Nat → IterResp

/-- Result of a `getID` call: the returned `(id, err)` pair, the
in-memory state left behind, and the trace of store operations
performed. -/
structure GetIDResult where
  id : Nat
  err : Option GoError
  mem : AllocatorMem
  ops : List StoreOp
deriving DecidableEq, Repr

/-- The candidate id computed by one loop iteration:
`uint32(findFirstAvailableIndex(ids))` after `sort.Ints(ids)` (the Go
conversion to `uint32` keeps the low 32 bits, i.e. reduces mod `2^32`;
the modelling of `sort.Ints` by insertion sort is immaterial, both
produce the unique sorted permutation of an int slice). -/
def candidateOf (ids : List Int) : Nat :=
  ((findFirstAvailableIndex (List.insertionSort (· ≤ ·) ids)) % (2 : Int) ^ 32).toNat

/-- `ia.ID = uint32(findFirstAvailableIndex(ids))`: the `ID` field is
overwritten with the candidate before the conditional write. -/
def setCand (mem : AllocatorMem) (ids : List Int) : AllocatorMem :=
  { mem with ID := candidateOf ids }

/-- The allocation loop of `getID`.  Go counts `attempts` upward from 0,
increments it after each `listAllIDs` and exits with
`errUnableToAllocateID` when a failed write leaves `attempts > 10`;
here `budget` counts the same thing downward, with
`budget = maxAttempts + 1 - (attempts so far)`, so the exit condition
`attempts > maxAttempts` becomes `budget ≤ 1`.  `k` is the iteration
index, addressing the store responses of this iteration. -/
def getIDLoop (iters : Nat → IterResp) : Nat → Nat → AllocatorMem → List StoreOp → GetIDResult
  | 0, k, mem, ops =>
    match listAllIDs (iters k).keysRes with
    | .error e => ⟨0, some e, mem, ops ++ [.listKeys]⟩
    | .ok ids =>
      match (iters k).putRes with
      | .error e => ⟨0, some e, setCand mem ids, ops ++ [.listKeys, .put (candidateOf ids)]⟩
      | .ok true => ⟨candidateOf ids, none, ⟨true, candidateOf ids⟩, ops ++ [.listKeys, .put (candidateOf ids)]⟩
      | .ok false => ⟨0, some .unableToAllocateID, setCand mem ids, ops ++ [.listKeys, .put (candidateOf ids)]⟩
  | 1, k, mem, ops =>
    match listAllIDs (iters k).keysRes with
    | .error e => ⟨0, some e, mem, ops ++ [.listKeys]⟩
    | .ok ids =>
      match (iters k).putRes with
      | .error e => ⟨0, some e, setCand mem ids, ops ++ [.listKeys, .put (candidateOf ids)]⟩
      | .ok true => ⟨candidateOf ids, none, ⟨true, candidateOf ids⟩, ops ++ [.listKeys, .put (candidateOf ids)]⟩
      | .ok false => ⟨0, some .unableToAllocateID, setCand mem ids, ops ++ [.listKeys, .put (candidateOf ids)]⟩
  | b + 2, k, mem, ops =>
    match listAllIDs (iters k).keysRes with
    | .error e => ⟨0, some e, mem, ops ++ [.listKeys]⟩
    | .ok ids =>
      match (iters k).putRes with
      | .error e => ⟨0, some e, setCand mem ids, ops ++ [.listKeys, .put (candidateOf ids)]⟩
      | .ok true => ⟨candidateOf ids, none, ⟨true, candidateOf ids⟩, ops ++ [.listKeys, .put (candidateOf ids)]⟩
      | .ok false => getIDLoop iters (b + 1) (k + 1) (setCand mem ids) (ops ++ [.listKeys, .put (candidateOf ids)])

/-- Go `getID` (the `acquire()` operation): return the cached `ID` when
`allocated` is already set; otherwise run the discovery pass
(`findExistingEntry`), and only if it finds nothing enter the
allocation loop with a fresh attempt counter. -/
def getID (label : String) (mem : AllocatorMem) (o : CallOracle) : GetIDResult :=
  if mem.allocated then ⟨mem.ID, none, mem, []⟩
  else
    match findExistingEntry label o.lvRes with
    | .error e => ⟨0, some e, mem, [.listValues]⟩
    | .ok (some entry) => ⟨entry.id, none, ⟨true, entry.id⟩, [.listValues]⟩
    | .ok none => getIDLoop o.iters (maxAttempts + 1) 0 mem [.listValues]

/-- Result of a `releaseID` call: the returned error, the in-memory
state left behind, and the trace of store operations performed. -/
structure ReleaseResult where
  err : Option GoError
  mem : AllocatorMem
  ops : List StoreOp
deriving DecidableEq, Repr

/-- Go `releaseID` (the `release()` operation): fail with
`errNoIDallocated` when nothing is held; otherwise delete the key of
the held id (the boolean `existed` result of `Delete` is discarded)
and clear `allocated` exactly when the delete reported no error. -/
def releaseID (mem : AllocatorMem) (delRes : Except GoError Bool) : ReleaseResult :=
  if mem.allocated then
    match delRes with
    | .error e => ⟨some e, mem, [.delete mem.ID]⟩
    | .ok _ => ⟨none, ⟨false, mem.ID⟩, [.delete mem.ID]⟩
  else ⟨some .noIDallocated, mem, []⟩

/-!
Concurrent system model for the uniqueness invariant.

Several `idAllocator` instances share one etcd store.  Each instance
holds its in-memory state; the store maps a key index to the
`uid.Identifier` record written there.  Concurrency is modelled by an
interleaving step relation whose atomic grains are the individual
store operations, exactly the grains etcd guarantees: in particular
`PutIfNotExists` is a single atomic create-if-absent transaction.
Because the listing that feeds `findFirstAvailableIndex` may be
arbitrarily stale by the time the conditional write runs, the write
step allows an arbitrary candidate; the only thing the code relies on
for uniqueness is the write's atomic absence check, which the step
enforces.
-/

/-- One allocator instance: its fixed service label plus the mutable
`allocated`/`ID` pair. -/
structure NodeState where
  serviceLabel : String
  allocated : Bool
  ID : Nat
deriving DecidableEq, Repr

/-- The shared store: an association list from key index to the stored
`uid.Identifier` record. -/
abbrev Store := List (Nat × Identifier)

/-- Read the record stored under key index `k`. -/
def storeGet (st : Store) (k : Nat) : Option Identifier :=
  (st.find? (fun p => p.1 == k)).map Prod.snd

/-- `PutIfNotExists` payload: bind key index `k` to record `v` (used
only when `k` is absent). -/
def storePut (st : Store) (k : Nat) (v : Identifier) : Store := (k, v) :: st

/-- `Delete`: remove the binding of key index `k` (a no-op when the key
is absent, as with etcd). -/
def storeDel (st : Store) (k : Nat) : Store := st.filter (fun p => p.1 != k)

/-- A system of allocator instances sharing one store. -/
structure System where
  nodes : List NodeState
  store : Store
deriving DecidableEq, Repr

/-- Interleaving semantics of the allocator protocol.
`discover` is the discovery pass adopting a listed record whose `Name`
matches; `recompute` is `ia.ID = uint32(findFirstAvailableIndex(ids))`
overwriting the `ID` field of a not-yet-allocated instance (the
candidate is unconstrained because the listing may be stale);
`writeWin` is a successful `PutIfNotExists` of the candidate record
`{Name: label, Id: candidate}`, atomic with its absence check;
`release` is a successful `Delete` in `releaseID`.  Failed conditional
writes, store errors and error returns leave the shared state and the
`allocated`/`ID` pair unchanged, so they are invisible stutters here. -/
inductive Step : System → System → Prop where
  | discover (ns : List NodeState) (st : Store) (i : Nat) (hi : i < ns.length)
      (k : Nat) (v : Identifier)
      (hunalloc : (ns.get ⟨i, hi⟩).allocated = false)
      (hlook : storeGet st k = some v)
      (howner : v.name = (ns.get ⟨i, hi⟩).serviceLabel) :
      Step ⟨ns, st⟩ ⟨ns.set i ⟨(ns.get ⟨i, hi⟩).serviceLabel, true, v.id⟩, st⟩
  | recompute (ns : List NodeState) (st : Store) (i : Nat) (hi : i < ns.length)
      (cand : Nat)
      (hunalloc : (ns.get ⟨i, hi⟩).allocated = false) :
      Step ⟨ns, st⟩ ⟨ns.set i ⟨(ns.get ⟨i, hi⟩).serviceLabel, false, cand⟩, st⟩
  | writeWin (ns : List NodeState) (st : Store) (i : Nat) (hi : i < ns.length)
      (cand : Nat)
      (hunalloc : (ns.get ⟨i, hi⟩).allocated = false)
      (habsent : storeGet st cand = none) :
      Step ⟨ns, st⟩ ⟨ns.set i ⟨(ns.get ⟨i, hi⟩).serviceLabel, true, cand⟩,
        storePut st cand ⟨(ns.get ⟨i, hi⟩).serviceLabel, cand⟩⟩
  | release (ns : List NodeState) (st : Store) (i : Nat) (hi : i < ns.length)
      (halloc : (ns.get ⟨i, hi⟩).allocated = true) :
      Step ⟨ns, st⟩ ⟨ns.set i ⟨(ns.get ⟨i, hi⟩).serviceLabel, false, (ns.get ⟨i, hi⟩).ID⟩,
        storeDel st (ns.get ⟨i, hi⟩).ID⟩

/-- A fresh system: every instance starts with `allocated = false` and
the zero value of `uint32` in `ID`, the store is empty. -/
def initSystem (labels : List String) : System :=
  ⟨labels.map (fun l => ⟨l, false, 0⟩), []⟩

/-- Reachability under the interleaving semantics. -/
def Reachable (s t : System) : Prop := Relation.ReflTransGen Step s t

/-- Every stored record's `Id` field agrees with its key index (writes
put `{Id: cand}` under key `cand`). -/
def StoreWf (sys : System) : Prop :=
  ∀ k v, storeGet sys.store k = some v → v.id = k

/-- Every allocated instance has its own record, under its own id, in
the store. -/
def AllocInv (sys : System) : Prop :=
  ∀ i (hi : i < sys.nodes.length),
    (sys.nodes.get ⟨i, hi⟩).allocated = true →
    storeGet sys.store (sys.nodes.get ⟨i, hi⟩).ID =
      some ⟨(sys.nodes.get ⟨i, hi⟩).serviceLabel, (sys.nodes.get ⟨i, hi⟩).ID⟩

/-- The inductive invariant carried along reachability: the labels are
those the system was built with, the store is well-formed, and every
allocated instance owns its store record. -/
def SysInv (labels : List String) (sys : System) : Prop :=
  sys.nodes.map NodeState.serviceLabel = labels ∧ StoreWf sys ∧ AllocInv sys

/-! ### Decimal formatting and parsing -/

lemma charVal_digitChar (n : Nat) (h : n < 10) : charVal (Nat.digitChar n) = n := by
  interval_cases n <;> rfl

lemma isDigit_digitChar (n : Nat) (h : n < 10) : (Nat.digitChar n).isDigit = true := by
  interval_cases n <;> rfl

lemma digitsVal_append_one (l : List Char) (c : Char) :
    digitsVal (l ++ [c]) = digitsVal l * 10 + charVal c := by
  simp [digitsVal, List.foldl_append]

lemma digitsVal_decimalRev (f : Nat) : ∀ n : Nat, n < 10 ^ f →
    digitsVal (decimalRev f n).reverse = n := by
  induction f with
  | zero =>
    intro n hn
    have : n = 0 := by omega
    subst this
    rfl
  | succ f ih =>
    intro n hn
    by_cases h10 : n < 10
    · simp only [decimalRev, if_pos h10, List.reverse_singleton]
      show digitsVal ([] ++ [Nat.digitChar n]) = n
      rw [digitsVal_append_one, charVal_digitChar n h10]
      simp [digitsVal]
    · simp only [decimalRev, if_neg h10, List.reverse_cons]
      rw [digitsVal_append_one, ih (n / 10) (by
        have : 10 ^ f * 10 = 10 ^ (f + 1) := by ring
        omega), charVal_digitChar (n % 10) (Nat.mod_lt n (by norm_num))]
      omega

lemma all_isDigit_decimalRev (f : Nat) : ∀ n : Nat, (decimalRev f n).all Char.isDigit = true := by
  induction f with
  | zero => intro n; rfl
  | succ f ih =>
    intro n
    by_cases h10 : n < 10
    · simp only [decimalRev, if_pos h10, List.all_cons, List.all_nil,
        isDigit_digitChar n h10, Bool.and_self]
    · simp only [decimalRev, if_neg h10, List.all_cons, ih (n / 10),
        isDigit_digitChar (n % 10) (Nat.mod_lt n (by norm_num)), Bool.true_and]

lemma natToDecimal_ne_nil (n : Nat) : natToDecimal n ≠ [] := by
  unfold natToDecimal decimalRev
  by_cases h10 : n < 10 <;> simp [h10]

lemma natToDecimal_all_isDigit (n : Nat) : (natToDecimal n).all Char.isDigit = true := by
  unfold natToDecimal
  rw [List.all_reverse]
  exact all_isDigit_decimalRev (n + 1) n

lemma digitsVal_natToDecimal (n : Nat) : digitsVal (natToDecimal n) = n := by
  apply digitsVal_decimalRev
  calc n < 10 ^ n := Nat.lt_pow_self (by norm_num) n
  _ ≤ 10 ^ (n + 1) := Nat.pow_le_pow_right (by norm_num) (Nat.le_succ n)

lemma atoi_of_digits (l : List Char) (hne : l ≠ []) (hdig : l.all Char.isDigit = true) :
    atoi l = atoiCore false l := by
  cases l with
  | nil => exact absurd rfl hne
  | cons c t =>
    have hc : c.isDigit = true := by
      rw [List.all_cons, Bool.and_eq_true] at hdig
      exact hdig.1
    have hminus : c ≠ '-' := by rintro rfl; exact absurd hc (by decide)
    have hplus : c ≠ '+' := by rintro rfl; exact absurd hc (by decide)
    unfold atoi
    split
    · rename_i heq; injection heq with h1 _; exact absurd h1 hminus
    · rename_i heq; injection heq with h1 _; exact absurd h1 hplus
    · rfl

lemma atoiRange_ok (v : Int) (h1 : -((2 : Int) ^ 63) ≤ v) (h2 : v < (2 : Int) ^ 63) :
    atoiRange v = .ok v := by
  unfold atoiRange
  rw [if_neg]
  simp only [Bool.or_eq_true, decide_eq_true_eq, not_or, not_lt, not_le]
  exact ⟨h1, h2⟩

lemma atoiCore_not_sign (l : List Char) (hne : l ≠ []) (hdig : l.all Char.isDigit = true)
    (neg : Bool) :
    atoiCore neg l = atoiRange (if neg then -(digitsVal l : Int) else (digitsVal l : Int)) := by
  have hany : (l.any fun c => !c.isDigit) = false := by
    rw [List.any_eq_false]
    intro c hcmem
    rw [List.all_eq_true] at hdig
    simp [hdig c hcmem]
  have hemp : l.isEmpty = false := by
    cases l with
    | nil => exact absurd rfl hne
    | cons c t => rfl
  unfold atoiCore
  rw [hany, hemp]
  rfl

lemma atoi_natToDecimal (n : Nat) (h : (n : Int) < (2 : Int) ^ 63) :
    atoi (natToDecimal n) = .ok (n : Int) := by
  rw [atoi_of_digits _ (natToDecimal_ne_nil n) (natToDecimal_all_isDigit n),
    atoiCore_not_sign _ (natToDecimal_ne_nil n) (natToDecimal_all_isDigit n) false]
  simp only [Bool.false_eq_true, if_false, digitsVal_natToDecimal]
  exact atoiRange_ok _ (le_trans (by norm_num) (Int.ofNat_nonneg n)) h

lemma atoi_neg_natToDecimal (n : Nat) (h : (n : Int) ≤ (2 : Int) ^ 63) :
    atoi ('-' :: natToDecimal n) = .ok (-(n : Int)) := by
  show atoiCore true (natToDecimal n) = .ok (-(n : Int))
  rw [atoiCore_not_sign _ (natToDecimal_ne_nil n) (natToDecimal_all_isDigit n) true]
  simp only [if_true, digitsVal_natToDecimal]
  exact atoiRange_ok _ (neg_le_neg h)
    (lt_of_le_of_lt (neg_nonpos.mpr (Int.ofNat_nonneg n)) (by norm_num))

/-! ### Key codec -/

lemma extractIndexFromKey_append (tail : List Char) :
    extractIndexFromKey (allocatedIDsKey ++ tail) = atoi tail := by
  unfold extractIndexFromKey
  rw [if_pos, List.drop_left]
  rw [List.isPrefixOf_iff_prefix]
  exact List.prefix_append _ _

lemma extractIndexFromKey_intDecimal (n : Int)
    (h1 : -((2 : Int) ^ 63) ≤ n) (h2 : n < (2 : Int) ^ 63) :
    extractIndexFromKey (allocatedIDsKey ++ intDecimal n) = .ok n := by
  rw [extractIndexFromKey_append]
  unfold intDecimal
  by_cases hneg : n < 0
  · rw [if_pos hneg, atoi_neg_natToDecimal n.natAbs]
    · congr 1
      omega
    · omega
  · rw [if_neg hneg, atoi_natToDecimal n.toNat]
    · congr 1
      omega
    · omega

/-! ### First-gap computation -/

lemma ffaLoop_spec (l : List Int) : ∀ r : Int, l.Chain' (· < ·) → (∀ x ∈ l, r ≤ x) →
    r ≤ ffaLoop r l ∧ ffaLoop r l ∉ l ∧ ∀ m : Int, r ≤ m → m < ffaLoop r l → m ∈ l := by
  induction l with
  | nil =>
    intro r _ _
    exact ⟨le_refl r, List.not_mem_nil r,
      fun m hm1 hm2 => absurd (lt_of_le_of_lt hm1 hm2) (lt_irrefl r)⟩
  | cons v rest ih =>
    intro r hchain hge
    have hrest : ∀ x ∈ rest, v < x := by
      rw [List.chain'_iff_pairwise, List.pairwise_cons] at hchain
      exact hchain.1
    by_cases hrv : r = v
    · subst hrv
      have hloop : ffaLoop r (r :: rest) = ffaLoop (r + 1) rest := by
        simp [ffaLoop]
      obtain ⟨h1, h2, h3⟩ := ih (r + 1) hchain.tail (fun x hx => Int.add_one_le_iff.mpr (hrest x hx))
      rw [hloop]
      constructor
      · exact le_trans (by omega) h1
      constructor
      · rw [List.mem_cons, not_or]
        exact ⟨by omega, h2⟩
      · intro m hm1 hm2
        rcases eq_or_lt_of_le hm1 with heq | hlt
        · exact heq ▸ List.mem_cons_self r rest
        · exact List.mem_cons_of_mem r (h3 m (by omega) hm2)
    · have hloop : ffaLoop r (v :: rest) = r := by
        simp [ffaLoop, hrv]
      rw [hloop]
      constructor
      · exact le_refl r
      constructor
      · rw [List.mem_cons, not_or]
        refine ⟨hrv, fun hmem => ?inr⟩
        have hv := hge v (List.mem_cons_self v rest)
        exact absurd (hrest r hmem) (by omega)
      · exact fun m hm1 hm2 => absurd (lt_of_le_of_lt hm1 hm2) (lt_irrefl r)

lemma ffaLoop_consecFrom (n : Nat) : ∀ r : Int, ffaLoop r (consecFrom r n) = r + n := by
  induction n with
  | zero => intro r; simp [consecFrom, ffaLoop]
  | succ n ih =>
    intro r
    show ffaLoop r (r :: consecFrom (r + 1) n) = r + (n + 1 : Nat)
    rw [show ffaLoop r (r :: consecFrom (r + 1) n) = ffaLoop (r + 1) (consecFrom (r + 1) n) by
      simp [ffaLoop]]
    rw [ih (r + 1)]
    push_cast
    ring

/-! ### Claim C2 -/

/-- Claim C2: for every list of distinct positive integers sorted
ascending, `findFirstAvailableIndex` returns the smallest positive
integer not present in the list (it is at least 1, absent from the
list, and every smaller positive integer is present); in particular it
returns `n + 1` on the gap-free list `[1, ..., n]` and `3` on
`[1, 2, 4]`. -/
theorem findFirstAvailableIndex_first_gap (ids : List Int)
    (hsorted : ids.Chain' (· < ·)) (hpos : ∀ x ∈ ids, 1 ≤ x) :
    (1 ≤ findFirstAvailableIndex ids ∧ findFirstAvailableIndex ids ∉ ids ∧
      ∀ m : Int, 1 ≤ m → m < findFirstAvailableIndex ids → m ∈ ids) ∧
    (∀ n : Nat, findFirstAvailableIndex (consecFrom 1 n) = (n : Int) + 1) ∧
    findFirstAvailableIndex [1, 2, 4] = 3 := by
  refine ⟨ffaLoop_spec ids 1 hsorted hpos, fun n => ?gapfree, rfl⟩
  unfold findFirstAvailableIndex
  rw [ffaLoop_consecFrom n 1]
  ring

/-- Witness for C2 at the concrete store contents `{1, 2, 4}`. -/
theorem findFirstAvailableIndex_first_gap_witness :
    ((1 ≤ findFirstAvailableIndex [1, 2, 4] ∧ findFirstAvailableIndex [1, 2, 4] ∉ ([1, 2, 4] : List Int) ∧
      ∀ m : Int, 1 ≤ m → m < findFirstAvailableIndex [1, 2, 4] → m ∈ ([1, 2, 4] : List Int)) ∧
    (∀ n : Nat, findFirstAvailableIndex (consecFrom 1 n) = (n : Int) + 1) ∧
    findFirstAvailableIndex [1, 2, 4] = 3) :=
  findFirstAvailableIndex_first_gap [1, 2, 4]
    (by norm_num [List.chain'_cons]) (by decide)

/-! ### Claim C9 -/

/-- Claim C9: the key codec round-trips every `uint32` id —
`extractIndexFromKey (createKey id) = id` with no error — and every
key that does not begin with the `allocatedIDs/` namespace is rejected
with `errInvalidKey`. -/
theorem createKey_extract_round_trip :
    (∀ id : Nat, id < 2 ^ 32 →
      extractIndexFromKey (createKey id) = .ok (id : Int)) ∧
    (∀ key : List Char, allocatedIDsKey.isPrefixOf key = false →
      extractIndexFromKey key = .error .invalidKey) := by
  constructor
  · intro id hid
    unfold createKey
    rw [extractIndexFromKey_append, atoi_natToDecimal]
    have : (id : Int) < (2 : Int) ^ 32 := by exact_mod_cast hid
    calc (id : Int) < (2 : Int) ^ 32 := this
    _ < (2 : Int) ^ 63 := by norm_num
  · intro key hkey
    unfold extractIndexFromKey
    rw [hkey]
    rfl

/-- Witness for C9 at id 3 and the foreign key `"foo"`. -/
theorem createKey_extract_round_trip_witness :
    extractIndexFromKey (createKey 3) = .ok (3 : Int) ∧
    extractIndexFromKey ("foo".data) = .error .invalidKey :=
  ⟨createKey_extract_round_trip.1 3 (by norm_num),
   createKey_extract_round_trip.2 ("foo".data) (by decide)⟩

/-! ### Claim C10 -/

/-- Counterexample to C10 as stated: for the integer `n = 2 ^ 63`
(which a 64-bit Go `int` cannot represent), the key made of the
namespace followed by the decimal form of `n` is not parsed back to
`n` with no error — `strconv.Atoi` fails with a range error. -/
theorem extractIndexFromKey_range_counterexample :
    extractIndexFromKey (allocatedIDsKey ++ intDecimal ((2 : Int) ^ 63)) =
      .error .parseRangeError := by rfl

/-- Claim C10 (amended: restricted to integers representable in a
signed 64-bit `int`, the range `strconv.Atoi` accepts): for every such
integer `n`, including 0 and negative values, `extractIndexFromKey`
maps the namespace followed by the decimal form of `n` to `n` with no
error — positivity of the decoded id is not enforced — and
consequently `listAllIDs` can return non-positive identifiers. -/
theorem extractIndexFromKey_int64 :
    (∀ n : Int, -((2 : Int) ^ 63) ≤ n → n < (2 : Int) ^ 63 →
      extractIndexFromKey (allocatedIDsKey ++ intDecimal n) = .ok n) ∧
    listAllIDs (.ok [allocatedIDsKey ++ intDecimal (-3), allocatedIDsKey ++ intDecimal 0]) =
      .ok [-3, 0] := by
  exact ⟨extractIndexFromKey_intDecimal, rfl⟩

/-- Witness for C10 at `n = -3` (the namespace followed by `"-3"`). -/
theorem extractIndexFromKey_int64_witness :
    extractIndexFromKey (allocatedIDsKey ++ intDecimal (-3)) = .ok (-3 : Int) :=
  extractIndexFromKey_int64.1 (-3) (by norm_num) (by norm_num)

/-! ### Claims C6 and C7 -/

/-- Claim C6: with `allocated = false`, `releaseID` fails with
`errNoIDallocated`, performs no store operation, and leaves the
in-memory state unchanged. -/
theorem releaseID_unallocated_fails (mem : AllocatorMem) (delRes : Except GoError Bool)
    (h : mem.allocated = false) :
    releaseID mem delRes = ⟨some .noIDallocated, mem, []⟩ := by
  unfold releaseID
  rw [h]
  rfl

/-- Witness for C6 on a fresh instance. -/
theorem releaseID_unallocated_fails_witness :
    releaseID ⟨false, 0⟩ (.ok true) = ⟨some .noIDallocated, ⟨false, 0⟩, []⟩ :=
  releaseID_unallocated_fails ⟨false, 0⟩ (.ok true) rfl

/-- Claim C7: with `allocated = true`, a failed store delete leaves
`allocated` true (and the `ID`) unchanged and returns that error,
while a delete reporting no error — whether or not the key existed —
clears `allocated` and returns no error; either way exactly one
`Delete` of the held id's key is issued. -/
theorem releaseID_allocated_cases (mem : AllocatorMem) (h : mem.allocated = true) :
    (∀ e : GoError, releaseID mem (.error e) = ⟨some e, mem, [.delete mem.ID]⟩) ∧
    (∀ existed : Bool, releaseID mem (.ok existed) = ⟨none, ⟨false, mem.ID⟩, [.delete mem.ID]⟩) := by
  constructor
  · intro e
    unfold releaseID
    rw [h]
    rfl
  · intro existed
    unfold releaseID
    rw [h]
    rfl

/-- Witness for C7 on a holder of id 5: a failed delete, a delete of an
existing key, and a delete of an already-absent key. -/
theorem releaseID_allocated_cases_witness :
    releaseID ⟨true, 5⟩ (.error (.storeFailure 0)) = ⟨some (.storeFailure 0), ⟨true, 5⟩, [.delete 5]⟩ ∧
    releaseID ⟨true, 5⟩ (.ok true) = ⟨none, ⟨false, 5⟩, [.delete 5]⟩ ∧
    releaseID ⟨true, 5⟩ (.ok false) = ⟨none, ⟨false, 5⟩, [.delete 5]⟩ :=
  ⟨(releaseID_allocated_cases ⟨true, 5⟩ rfl).1 (.storeFailure 0),
   (releaseID_allocated_cases ⟨true, 5⟩ rfl).2 true,
   (releaseID_allocated_cases ⟨true, 5⟩ rfl).2 false⟩

/-! ### The allocation loop of getID -/

/-- A lost conditional-write race: the listing succeeded and
`PutIfNotExists` reported `succeeded = false` with no error.  This is
the only iteration outcome that makes the Go loop continue. -/
def LostRace (it : IterResp) : Prop :=
  (∃ ids, listAllIDs it.keysRes = Except.ok ids) ∧ it.putRes = Except.ok false

lemma getIDLoop_list_error (iters : Nat → IterResp) (b k : Nat) (mem : AllocatorMem)
    (ops : List StoreOp) (e : GoError) (h : listAllIDs (iters k).keysRes = .error e) :
    getIDLoop iters b k mem ops = ⟨0, some e, mem, ops ++ [.listKeys]⟩ := by
  rcases b with _ | _ | b <;> (simp only [getIDLoop]; rw [h])

lemma getIDLoop_put_error (iters : Nat → IterResp) (b k : Nat) (mem : AllocatorMem)
    (ops : List StoreOp) (ids : List Int) (e : GoError)
    (h1 : listAllIDs (iters k).keysRes = .ok ids) (h2 : (iters k).putRes = .error e) :
    getIDLoop iters b k mem ops =
      ⟨0, some e, setCand mem ids, ops ++ [.listKeys, .put (candidateOf ids)]⟩ := by
  rcases b with _ | _ | b <;> (simp only [getIDLoop]; rw [h1, h2])

lemma getIDLoop_put_success (iters : Nat → IterResp) (b k : Nat) (mem : AllocatorMem)
    (ops : List StoreOp) (ids : List Int)
    (h1 : listAllIDs (iters k).keysRes = .ok ids) (h2 : (iters k).putRes = .ok true) :
    getIDLoop iters b k mem ops =
      ⟨candidateOf ids, none, ⟨true, candidateOf ids⟩, ops ++ [.listKeys, .put (candidateOf ids)]⟩ := by
  rcases b with _ | _ | b <;> (simp only [getIDLoop]; rw [h1, h2])

lemma getIDLoop_lost_low (iters : Nat → IterResp) (b k : Nat) (mem : AllocatorMem)
    (ops : List StoreOp) (ids : List Int) (hb : b ≤ 1)
    (h1 : listAllIDs (iters k).keysRes = .ok ids) (h2 : (iters k).putRes = .ok false) :
    getIDLoop iters b k mem ops =
      ⟨0, some .unableToAllocateID, setCand mem ids, ops ++ [.listKeys, .put (candidateOf ids)]⟩ := by
  rcases b with _ | _ | b
  · simp only [getIDLoop]; rw [h1, h2]
  · simp only [getIDLoop]; rw [h1, h2]
  · omega

lemma getIDLoop_lost_step (iters : Nat → IterResp) (b k : Nat) (mem : AllocatorMem)
    (ops : List StoreOp) (ids : List Int)
    (h1 : listAllIDs (iters k).keysRes = .ok ids) (h2 : (iters k).putRes = .ok false) :
    getIDLoop iters (b + 2) k mem ops =
      getIDLoop iters (b + 1) (k + 1) (setCand mem ids) (ops ++ [.listKeys, .put (candidateOf ids)]) := by
  simp only [getIDLoop]
  rw [h1, h2]

lemma countP_iterOps_put (c : Nat) :
    List.countP isPutOp [StoreOp.listKeys, StoreOp.put c] = 1 := by rfl

lemma countP_iterOps_keys (c : Nat) :
    List.countP isListKeysOp [StoreOp.listKeys, StoreOp.put c] = 1 := by rfl

/-- Skipping `n` consecutive lost-race iterations: the loop reaches
iteration `k + n` with `n` conditional writes and `n` listings in the
trace, having spent `n` of its budget. -/
lemma getIDLoop_skip (iters : Nat → IterResp) (n : Nat) :
    ∀ (b k : Nat) (mem : AllocatorMem) (ops : List StoreOp),
    (∀ j, j < n → LostRace (iters (k + j))) →
    ∃ mem2 tr, getIDLoop iters (n + b + 1) k mem ops = getIDLoop iters (b + 1) (k + n) mem2 (ops ++ tr) ∧
      tr.countP isPutOp = n ∧ tr.countP isListKeysOp = n := by
  induction n with
  | zero =>
    intro b k mem ops _
    exact ⟨mem, [], by simp⟩
  | succ n ih =>
    intro b k mem ops hlost
    obtain ⟨⟨ids, hids⟩, hput⟩ := hlost 0 (Nat.succ_pos n)
    have hb : n + 1 + b + 1 = (n + b) + 2 := by omega
    rw [hb, getIDLoop_lost_step iters (n + b) k mem ops ids hids hput]
    obtain ⟨mem2, tr, heq, hc1, hc2⟩ := ih b (k + 1) (setCand mem ids)
      (ops ++ [.listKeys, .put (candidateOf ids)])
      (fun j hj => by
        have hx := hlost (j + 1) (by omega)
        rwa [show k + (j + 1) = k + 1 + j by omega] at hx)
    rw [show n + b + 1 = (n + b) + 1 by rfl] at heq
    refine ⟨mem2, [.listKeys, .put (candidateOf ids)] ++ tr, ?eq, ?c1, ?c2⟩
    · rw [heq, show k + 1 + n = k + (n + 1) by omega, List.append_assoc]
    · rw [List.countP_append, countP_iterOps_put, hc1, Nat.add_comm]
    · rw [List.countP_append, countP_iterOps_keys, hc2, Nat.add_comm]

/-- Exhaustion: when every remaining iteration loses its race, the loop
returns `(0, errUnableToAllocateID)` after spending its whole budget,
one conditional write and one listing per iteration. -/
lemma getIDLoop_exhaust (iters : Nat → IterResp) (b : Nat) :
    ∀ (k : Nat) (mem : AllocatorMem) (ops : List StoreOp),
    (∀ j, j < b + 1 → LostRace (iters (k + j))) →
    ∃ mem2 tr, getIDLoop iters (b + 1) k mem ops = ⟨0, some .unableToAllocateID, mem2, ops ++ tr⟩ ∧
      tr.countP isPutOp = b + 1 ∧ tr.countP isListKeysOp = b + 1 := by
  induction b with
  | zero =>
    intro k mem ops hlost
    obtain ⟨⟨ids, hids⟩, hput⟩ := hlost 0 Nat.one_pos
    exact ⟨setCand mem ids, [.listKeys, .put (candidateOf ids)],
      getIDLoop_lost_low iters 1 k mem ops ids (by omega) hids hput,
      countP_iterOps_put _, countP_iterOps_keys _⟩
  | succ b ih =>
    intro k mem ops hlost
    obtain ⟨⟨ids, hids⟩, hput⟩ := hlost 0 (Nat.succ_pos _)
    rw [show b + 1 + 1 = b + 2 by rfl, getIDLoop_lost_step iters b k mem ops ids hids hput]
    obtain ⟨mem2, tr, heq, hc1, hc2⟩ := ih (k + 1) (setCand mem ids)
      (ops ++ [.listKeys, .put (candidateOf ids)])
      (fun j hj => by
        have hx := hlost (j + 1) (by omega)
        rwa [show k + (j + 1) = k + 1 + j by omega] at hx)
    refine ⟨mem2, [.listKeys, .put (candidateOf ids)] ++ tr, ?eq, ?c1, ?c2⟩
    · rw [heq, List.append_assoc]
    · rw [List.countP_append, countP_iterOps_put, hc1]
      omega
    · rw [List.countP_append, countP_iterOps_keys, hc2]
      omega

/-- The loop with budget `b + 1` performs at most `b + 1` conditional
writes beyond those already in the trace. -/
lemma getIDLoop_put_bound (iters : Nat → IterResp) (b : Nat) :
    ∀ (k : Nat) (mem : AllocatorMem) (ops : List StoreOp),
    (getIDLoop iters (b + 1) k mem ops).ops.countP isPutOp ≤ ops.countP isPutOp + (b + 1) := by
  induction b with
  | zero =>
    intro k mem ops
    rcases hlist : listAllIDs (iters k).keysRes with e | ids
    · rw [getIDLoop_list_error iters 1 k mem ops e hlist]
      simp [List.countP_append, isPutOp]
    · rcases hput : (iters k).putRes with e | b
      · rw [getIDLoop_put_error iters 1 k mem ops ids e hlist hput]
        simp [List.countP_append, countP_iterOps_put]
      · rcases b with _ | _
        · rw [getIDLoop_lost_low iters 1 k mem ops ids (by omega) hlist hput]
          simp [List.countP_append, countP_iterOps_put]
        · rw [getIDLoop_put_success iters 1 k mem ops ids hlist hput]
          simp [List.countP_append, countP_iterOps_put]
  | succ b ih =>
    intro k mem ops
    rcases hlist : listAllIDs (iters k).keysRes with e | ids
    · rw [getIDLoop_list_error iters (b + 2) k mem ops e hlist]
      simp [List.countP_append, isPutOp]
    · rcases hput : (iters k).putRes with e | bb
      · rw [getIDLoop_put_error iters (b + 2) k mem ops ids e hlist hput]
        simp [List.countP_append, countP_iterOps_put]
      · rcases bb with _ | _
        · rw [getIDLoop_lost_step iters b k mem ops ids hlist hput]
          calc (getIDLoop iters (b + 1) (k + 1) (setCand mem ids)
              (ops ++ [StoreOp.listKeys, StoreOp.put (candidateOf ids)])).ops.countP isPutOp
              ≤ (ops ++ [StoreOp.listKeys, StoreOp.put (candidateOf ids)]).countP isPutOp + (b + 1) :=
                ih (k + 1) (setCand mem ids) _
          _ = ops.countP isPutOp + (b + 2) := by
              rw [List.countP_append, countP_iterOps_put]
              omega
        · rw [getIDLoop_put_success iters (b + 2) k mem ops ids hlist hput]
          simp [List.countP_append, countP_iterOps_put]

/-- Every loop invocation performs at least one `ListKeys` listing. -/
lemma getIDLoop_lists_once (iters : Nat → IterResp) (b : Nat) :
    ∀ (k : Nat) (mem : AllocatorMem) (ops : List StoreOp),
    ops.countP isListKeysOp + 1 ≤ (getIDLoop iters b k mem ops).ops.countP isListKeysOp := by
  induction b using Nat.strong_induction_on with
  | _ b ih =>
    intro k mem ops
    rcases hlist : listAllIDs (iters k).keysRes with e | ids
    · rw [getIDLoop_list_error iters b k mem ops e hlist]
      simp [List.countP_append, isListKeysOp]
    · rcases hput : (iters k).putRes with e | bb
      · rw [getIDLoop_put_error iters b k mem ops ids e hlist hput]
        simp [List.countP_append, countP_iterOps_keys]
      · rcases bb with _ | _
        · rcases b with _ | _ | b
          · rw [getIDLoop_lost_low iters 0 k mem ops ids (by omega) hlist hput]
            simp [List.countP_append, countP_iterOps_keys]
          · rw [getIDLoop_lost_low iters 1 k mem ops ids (by omega) hlist hput]
            simp [List.countP_append, countP_iterOps_keys]
          · rw [getIDLoop_lost_step iters b k mem ops ids hlist hput]
            calc ops.countP isListKeysOp + 1
                ≤ (ops ++ [StoreOp.listKeys, StoreOp.put (candidateOf ids)]).countP isListKeysOp := by
                  rw [List.countP_append, countP_iterOps_keys]
            _ ≤ _ := le_trans (Nat.le_succ _) (ih (b + 1) (by omega) (k + 1) (setCand mem ids) _)
        · rw [getIDLoop_put_success iters b k mem ops ids hlist hput]
          simp [List.countP_append, countP_iterOps_keys]

/-- Whenever the loop returns no error, it has set `allocated = true`
and returned exactly the `ID` it stored in memory. -/
lemma getIDLoop_success_shape (iters : Nat → IterResp) (b : Nat) :
    ∀ (k : Nat) (mem : AllocatorMem) (ops : List StoreOp),
    (getIDLoop iters b k mem ops).err = none →
    (getIDLoop iters b k mem ops).mem.allocated = true ∧
    (getIDLoop iters b k mem ops).id = (getIDLoop iters b k mem ops).mem.ID := by
  induction b using Nat.strong_induction_on with
  | _ b ih =>
    intro k mem ops herr
    rcases hlist : listAllIDs (iters k).keysRes with e | ids
    · rw [getIDLoop_list_error iters b k mem ops e hlist] at herr
      exact absurd herr (by simp)
    · rcases hput : (iters k).putRes with e | bb
      · rw [getIDLoop_put_error iters b k mem ops ids e hlist hput] at herr
        exact absurd herr (by simp)
      · rcases bb with _ | _
        · rcases b with _ | _ | b
          · rw [getIDLoop_lost_low iters 0 k mem ops ids (by omega) hlist hput] at herr
            exact absurd herr (by simp)
          · rw [getIDLoop_lost_low iters 1 k mem ops ids (by omega) hlist hput] at herr
            exact absurd herr (by simp)
          · rw [getIDLoop_lost_step iters b k mem ops ids hlist hput] at herr ⊢
            exact ih (b + 1) (by omega) (k + 1) (setCand mem ids) _ herr
        · rw [getIDLoop_put_success iters b k mem ops ids hlist hput]
          exact ⟨rfl, rfl⟩

lemma getID_not_allocated (label : String) (mem : AllocatorMem) (o : CallOracle)
    (hal : mem.allocated = false) :
    getID label mem o = (match findExistingEntry label o.lvRes with
      | .error e => ⟨0, some e, mem, [.listValues]⟩
      | .ok (some entry) => ⟨entry.id, none, ⟨true, entry.id⟩, [.listValues]⟩
      | .ok none => getIDLoop o.iters (maxAttempts + 1) 0 mem [.listValues]) := by
  simp only [getID, hal, Bool.false_eq_true, if_false]

lemma getID_discovery_error (label : String) (mem : AllocatorMem) (o : CallOracle) (e : GoError)
    (hal : mem.allocated = false) (h : findExistingEntry label o.lvRes = .error e) :
    getID label mem o = ⟨0, some e, mem, [.listValues]⟩ := by
  rw [getID_not_allocated label mem o hal, h]

lemma getID_discovery_found (label : String) (mem : AllocatorMem) (o : CallOracle)
    (entry : Identifier)
    (hal : mem.allocated = false) (h : findExistingEntry label o.lvRes = .ok (some entry)) :
    getID label mem o = ⟨entry.id, none, ⟨true, entry.id⟩, [.listValues]⟩ := by
  rw [getID_not_allocated label mem o hal, h]

lemma getID_runs_loop (label : String) (mem : AllocatorMem) (o : CallOracle)
    (hal : mem.allocated = false) (h : findExistingEntry label o.lvRes = .ok none) :
    getID label mem o = getIDLoop o.iters (maxAttempts + 1) 0 mem [.listValues] := by
  rw [getID_not_allocated label mem o hal, h]

lemma getID_success_shape (label : String) (mem : AllocatorMem) (o : CallOracle)
    (herr : (getID label mem o).err = none) :
    (getID label mem o).mem.allocated = true ∧
    (getID label mem o).id = (getID label mem o).mem.ID := by
  by_cases hal : mem.allocated = true
  · have h : getID label mem o = ⟨mem.ID, none, mem, []⟩ := by
      simp only [getID, if_pos hal]
    rw [h]
    exact ⟨hal, rfl⟩
  · rw [Bool.not_eq_true] at hal
    rcases hdisc : findExistingEntry label o.lvRes with e | entry
    · rw [getID_discovery_error label mem o e hal hdisc] at herr
      exact absurd herr (by simp)
    · rcases entry with _ | entry
      · rw [getID_runs_loop label mem o hal hdisc] at herr ⊢
        exact getIDLoop_success_shape o.iters (maxAttempts + 1) 0 mem [.listValues] herr
      · rw [getID_discovery_found label mem o entry hal hdisc]
        exact ⟨rfl, rfl⟩

/-! ### Claim C4 -/

/-- Claim C4: with `allocated = true`, `getID` returns the cached `ID`
with no error, leaves the state unchanged, and performs no store
operation; consequently two consecutive `getID` calls without an
intervening release (the first one succeeding) return the same
identifier and the second call issues no store reads or writes. -/
theorem getID_idempotent :
    (∀ (label : String) (mem : AllocatorMem) (o : CallOracle),
      mem.allocated = true → getID label mem o = ⟨mem.ID, none, mem, []⟩) ∧
    (∀ (label : String) (mem : AllocatorMem) (o o2 : CallOracle),
      (getID label mem o).err = none →
      getID label (getID label mem o).mem o2 =
        ⟨(getID label mem o).id, none, (getID label mem o).mem, []⟩) := by
  have hfirst : ∀ (label : String) (mem : AllocatorMem) (o : CallOracle),
      mem.allocated = true → getID label mem o = ⟨mem.ID, none, mem, []⟩ := by
    intro label mem o h
    simp only [getID, if_pos h]
  refine ⟨hfirst, fun label mem o o2 herr => ?second⟩
  obtain ⟨halloc, hid⟩ := getID_success_shape label mem o herr
  rw [hfirst label _ o2 halloc, hid]

/-- Witness for C4: a first call adopts id 7 from the store, the second
call returns it again with an empty operation trace. -/
theorem getID_idempotent_witness :
    getID "a" (getID "a" ⟨false, 0⟩ ⟨.ok [.ok ⟨"a", 7⟩], fun _ => ⟨.ok [], .ok false⟩⟩).mem
        ⟨.ok [.ok ⟨"a", 7⟩], fun _ => ⟨.ok [], .ok false⟩⟩ =
      ⟨(getID "a" ⟨false, 0⟩ ⟨.ok [.ok ⟨"a", 7⟩], fun _ => ⟨.ok [], .ok false⟩⟩).id, none,
       (getID "a" ⟨false, 0⟩ ⟨.ok [.ok ⟨"a", 7⟩], fun _ => ⟨.ok [], .ok false⟩⟩).mem, []⟩ :=
  getID_idempotent.2 "a" ⟨false, 0⟩ _ _ rfl

/-! ### Claim C5 -/

lemma findExistingEntryItems_first (label : String) :
    ∀ recs : List Identifier, (∃ r ∈ recs, r.name = label) →
    ∃ r, findExistingEntryItems label (recs.map Except.ok) = .ok (some r) ∧
      r ∈ recs ∧ r.name = label := by
  intro recs
  induction recs with
  | nil =>
    rintro ⟨r, hr, _⟩
    exact absurd hr (List.not_mem_nil r)
  | cons a t ih =>
    rintro ⟨r, hr, hname⟩
    by_cases ha : a.name = label
    · refine ⟨a, ?eqa, List.mem_cons_self a t, ha⟩
      simp [findExistingEntryItems, ha]
    · have hrt : r ∈ t := by
        rcases List.mem_cons.mp hr with rfl | hmemt
        · exact absurd hname ha
        · exact hmemt
      obtain ⟨r2, heq, hmem, hnm⟩ := ih ⟨r, hrt, hname⟩
      refine ⟨r2, ?eqt, List.mem_cons_of_mem a hmem, hnm⟩
      simp only [List.map_cons, findExistingEntryItems, if_neg ha]
      exact heq

/-- Claim C5: with `allocated = false`, when the store's listed records
contain one whose owner equals the instance's service label, `getID`
adopts the id of the first such record — setting `allocated = true` and
`ID` to it, returning it with no error — and issues no allocation
write (its trace is the single `ListValues` scan); in particular, when
all records carrying that label hold id `k` (e.g. the record left by a
previous holder of the same label), the call returns exactly `k`. -/
theorem getID_discovery_adopts (label : String) (mem : AllocatorMem) (o : CallOracle)
    (recs : List Identifier) (hal : mem.allocated = false)
    (hlv : o.lvRes = .ok (recs.map Except.ok))
    (hex : ∃ r ∈ recs, r.name = label) :
    ∃ r, r ∈ recs ∧ r.name = label ∧
      getID label mem o = ⟨r.id, none, ⟨true, r.id⟩, [.listValues]⟩ ∧
      ∀ k : Nat, (∀ r2 ∈ recs, r2.name = label → r2.id = k) → r.id = k := by
  obtain ⟨r, heq, hmem, hnm⟩ := findExistingEntryItems_first label recs hex
  refine ⟨r, hmem, hnm, ?geq, fun k hk => hk r hmem hnm⟩
  refine getID_discovery_found label mem o r hal ?hfind
  rw [hlv]
  exact heq

/-- Witness for C5: a fresh instance with label `"x"` re-acquires the
stored id 4. -/
theorem getID_discovery_adopts_witness :
    ∃ r, r ∈ [(⟨"x", 4⟩ : Identifier)] ∧ r.name = "x" ∧
      getID "x" ⟨false, 0⟩ ⟨.ok [.ok ⟨"x", 4⟩], fun _ => ⟨.ok [], .ok false⟩⟩ =
        ⟨r.id, none, ⟨true, r.id⟩, [.listValues]⟩ ∧
      ∀ k : Nat, (∀ r2 ∈ [(⟨"x", 4⟩ : Identifier)], r2.name = "x" → r2.id = k) → r.id = k :=
  getID_discovery_adopts "x" ⟨false, 0⟩ _ [⟨"x", 4⟩] rfl rfl
    ⟨⟨"x", 4⟩, List.mem_cons_self _ _, rfl⟩

/-! ### Claim C8 -/

/-- Claim C8: a store communication error aborts `getID` at once with
id 0 and that error, with no further store operations and no retry.
Part 1: an error in the discovery scan ends the call right there, the
trace being the single `ListValues`.  Part 2: after `k` lost-race
iterations (`k ≤ maxAttempts`, so the loop is still running), a
listing error at iteration `k` ends the call with exactly the `k`
conditional writes already made and `k + 1` listings — nothing after
the failure.  Part 3: the same for a conditional-write error at
iteration `k`, with `k + 1` writes and `k + 1` listings.  Part 4: a
lost conditional write (no error, `succeeded = false`) is the one
outcome that does cause another iteration: after `k + 1` lost races
with budget remaining, at least `k + 2` listings appear in the
trace. -/
theorem getID_store_error_aborts :
    (∀ (label : String) (mem : AllocatorMem) (o : CallOracle) (e : GoError),
      mem.allocated = false → findExistingEntry label o.lvRes = .error e →
      getID label mem o = ⟨0, some e, mem, [.listValues]⟩) ∧
    (∀ (label : String) (mem : AllocatorMem) (o : CallOracle) (k : Nat) (e : GoError),
      mem.allocated = false → findExistingEntry label o.lvRes = .ok none →
      k ≤ maxAttempts → (∀ j, j < k → LostRace (o.iters j)) →
      listAllIDs (o.iters k).keysRes = .error e →
      (getID label mem o).id = 0 ∧ (getID label mem o).err = some e ∧
      (getID label mem o).ops.countP isPutOp = k ∧
      (getID label mem o).ops.countP isListKeysOp = k + 1) ∧
    (∀ (label : String) (mem : AllocatorMem) (o : CallOracle) (k : Nat) (e : GoError) (ids : List Int),
      mem.allocated = false → findExistingEntry label o.lvRes = .ok none →
      k ≤ maxAttempts → (∀ j, j < k → LostRace (o.iters j)) →
      listAllIDs (o.iters k).keysRes = .ok ids → (o.iters k).putRes = .error e →
      (getID label mem o).id = 0 ∧ (getID label mem o).err = some e ∧
      (getID label mem o).ops.countP isPutOp = k + 1 ∧
      (getID label mem o).ops.countP isListKeysOp = k + 1) ∧
    (∀ (label : String) (mem : AllocatorMem) (o : CallOracle) (k : Nat),
      mem.allocated = false → findExistingEntry label o.lvRes = .ok none →
      k + 1 ≤ maxAttempts → (∀ j, j < k + 1 → LostRace (o.iters j)) →
      k + 2 ≤ (getID label mem o).ops.countP isListKeysOp) := by
  have hmax : maxAttempts = 10 := rfl
  refine ⟨fun label mem o e hal hdisc => getID_discovery_error label mem o e hal hdisc,
    fun label mem o k e hal hdisc hk hlost herrk => ?part2,
    fun label mem o k e ids hal hdisc hk hlost hok hput => ?part3,
    fun label mem o k hal hdisc hk hlost => ?part4⟩
  · obtain ⟨mem2, tr, hskip, hp, hl⟩ := getIDLoop_skip o.iters k (maxAttempts - k) 0 mem
      [.listValues] (fun j hj => by rw [Nat.zero_add]; exact hlost j hj)
    have hfull : getID label mem o =
        ⟨0, some e, mem2, ([StoreOp.listValues] ++ tr) ++ [StoreOp.listKeys]⟩ := by
      rw [getID_runs_loop label mem o hal hdisc,
        show maxAttempts + 1 = k + (maxAttempts - k) + 1 by omega, hskip,
        getIDLoop_list_error o.iters ((maxAttempts - k) + 1) (0 + k) mem2 _ e
          (by rw [Nat.zero_add]; exact herrk)]
    rw [hfull]
    refine ⟨rfl, rfl, ?c1, ?c2⟩
    · simp [List.countP_append, isPutOp, hp]
    · simp [List.countP_append, isListKeysOp, hl]
  · obtain ⟨mem2, tr, hskip, hp, hl⟩ := getIDLoop_skip o.iters k (maxAttempts - k) 0 mem
      [.listValues] (fun j hj => by rw [Nat.zero_add]; exact hlost j hj)
    have hfull : getID label mem o =
        ⟨0, some e, setCand mem2 ids,
          (([StoreOp.listValues] ++ tr) ++ [StoreOp.listKeys, StoreOp.put (candidateOf ids)])⟩ := by
      rw [getID_runs_loop label mem o hal hdisc,
        show maxAttempts + 1 = k + (maxAttempts - k) + 1 by omega, hskip,
        getIDLoop_put_error o.iters ((maxAttempts - k) + 1) (0 + k) mem2 _ ids e
          (by rw [Nat.zero_add]; exact hok) (by rw [Nat.zero_add]; exact hput)]
    rw [hfull]
    refine ⟨rfl, rfl, ?c3, ?c4⟩
    · simp [List.countP_append, isPutOp, hp, countP_iterOps_put]
    · simp [List.countP_append, isListKeysOp, hl, countP_iterOps_keys]
  · obtain ⟨mem2, tr, hskip, hp, hl⟩ := getIDLoop_skip o.iters (k + 1) (maxAttempts - (k + 1)) 0 mem
      [.listValues] (fun j hj => by rw [Nat.zero_add]; exact hlost j hj)
    rw [getID_runs_loop label mem o hal hdisc,
      show maxAttempts + 1 = (k + 1) + (maxAttempts - (k + 1)) + 1 by omega, hskip]
    calc k + 2 = ([StoreOp.listValues] ++ tr).countP isListKeysOp + 1 := by
          simp [List.countP_append, isListKeysOp, hl]
    _ ≤ _ := getIDLoop_lists_once o.iters ((maxAttempts - (k + 1)) + 1) (0 + (k + 1)) mem2 _

/-- Store responses with lost races in iterations 0 and 1 and a
`ListKeys` failure in iteration 2. -/
def oListErrAt2 : CallOracle :=
  ⟨.ok [], fun j => if j < 2 then ⟨.ok [], .ok false⟩ else ⟨.error (.storeFailure 2), .ok false⟩⟩

/-- Store responses with a lost race in iteration 0 and a
`PutIfNotExists` failure in iteration 1. -/
def oPutErrAt1 : CallOracle :=
  ⟨.ok [], fun j => if j < 1 then ⟨.ok [], .ok false⟩ else ⟨.ok [], .error (.storeFailure 3)⟩⟩

/-- Witness for C8: part 1 at a failed discovery scan; part 2 at a
listing failure in iteration 2 after two lost races; part 3 at a
conditional-write failure in iteration 1 after one lost race; part 4
after one lost race, the trace of a second listing. -/
theorem getID_store_error_aborts_witness :
    getID "a" ⟨false, 0⟩ ⟨.error (.storeFailure 1), fun _ => ⟨.ok [], .ok false⟩⟩ =
      ⟨0, some (.storeFailure 1), ⟨false, 0⟩, [.listValues]⟩ ∧
    ((getID "a" ⟨false, 0⟩ oListErrAt2).id = 0 ∧
      (getID "a" ⟨false, 0⟩ oListErrAt2).err = some (.storeFailure 2) ∧
      (getID "a" ⟨false, 0⟩ oListErrAt2).ops.countP isPutOp = 2 ∧
      (getID "a" ⟨false, 0⟩ oListErrAt2).ops.countP isListKeysOp = 3) ∧
    ((getID "a" ⟨false, 0⟩ oPutErrAt1).id = 0 ∧
      (getID "a" ⟨false, 0⟩ oPutErrAt1).err = some (.storeFailure 3) ∧
      (getID "a" ⟨false, 0⟩ oPutErrAt1).ops.countP isPutOp = 2 ∧
      (getID "a" ⟨false, 0⟩ oPutErrAt1).ops.countP isListKeysOp = 2) ∧
    3 ≤ (getID "a" ⟨false, 0⟩ ⟨.ok [], fun _ => ⟨.ok [], .ok false⟩⟩).ops.countP isListKeysOp :=
  ⟨getID_store_error_aborts.1 "a" ⟨false, 0⟩ _ (.storeFailure 1) rfl rfl,
   getID_store_error_aborts.2.1 "a" ⟨false, 0⟩ oListErrAt2 2 (.storeFailure 2) rfl rfl
     (by decide)
     (fun j hj => by interval_cases j <;> exact ⟨⟨[], rfl⟩, rfl⟩)
     rfl,
   getID_store_error_aborts.2.2.1 "a" ⟨false, 0⟩ oPutErrAt1 1 (.storeFailure 3) [] rfl rfl
     (by decide)
     (fun j hj => by
       have hj0 : j = 0 := by omega
       subst hj0
       exact ⟨⟨[], rfl⟩, rfl⟩)
     rfl rfl,
   getID_store_error_aborts.2.2.2 "a" ⟨false, 0⟩ _ 1 rfl rfl (by decide)
     (fun _ _ => ⟨⟨[], rfl⟩, rfl⟩)⟩

/-! ### Claim C3 -/

/-- Counterexample to C3 as stated: with discovery finding nothing and
every conditional write losing its race, `getID` performs 11
conditional-write attempts, not at most 10 — the Go loop increments
`attempts` and issues the write before comparing `attempts` against
`maxAttempts`, so the write of attempt 11 happens before the
`attempts > maxAttempts` exit. -/
theorem getID_attempts_counterexample :
    ¬ ((getID "n" ⟨false, 0⟩ ⟨.ok [], fun _ => ⟨.ok [], .ok false⟩⟩).ops.countP isPutOp
        ≤ maxAttempts) := by decide

/-- Claim C3 (amended: the bound is `maxAttempts + 1 = 11` conditional
writes, because the Go loop checks `attempts > maxAttempts` only after
incrementing the counter and issuing that attempt's write): every
`getID` call performs at most 11 conditional-write attempts, and when
discovery finds nothing and all 11 attempts lose their race, the call
fails with `errUnableToAllocateID` and returns id 0, having written
exactly 11 times. -/
theorem getID_attempt_bound :
    (∀ (label : String) (mem : AllocatorMem) (o : CallOracle),
      (getID label mem o).ops.countP isPutOp ≤ maxAttempts + 1) ∧
    (∀ (label : String) (mem : AllocatorMem) (o : CallOracle),
      mem.allocated = false → findExistingEntry label o.lvRes = .ok none →
      (∀ j, j < maxAttempts + 1 → LostRace (o.iters j)) →
      (getID label mem o).id = 0 ∧
      (getID label mem o).err = some .unableToAllocateID ∧
      (getID label mem o).ops.countP isPutOp = maxAttempts + 1) := by
  constructor
  · intro label mem o
    by_cases hal : mem.allocated = true
    · have h : getID label mem o = ⟨mem.ID, none, mem, []⟩ := by
        simp only [getID, if_pos hal]
      rw [h]
      simp
    · rw [Bool.not_eq_true] at hal
      rcases hdisc : findExistingEntry label o.lvRes with e | entry
      · rw [getID_discovery_error label mem o e hal hdisc]
        simp [isPutOp]
      · rcases entry with _ | entry
        · rw [getID_runs_loop label mem o hal hdisc]
          have hb := getIDLoop_put_bound o.iters maxAttempts 0 mem [.listValues]
          calc (getIDLoop o.iters (maxAttempts + 1) 0 mem [.listValues]).ops.countP isPutOp
              ≤ List.countP isPutOp [StoreOp.listValues] + (maxAttempts + 1) := hb
          _ = maxAttempts + 1 := by simp [isPutOp]
        · rw [getID_discovery_found label mem o entry hal hdisc]
          simp [isPutOp]
  · intro label mem o hal hdisc hlost
    obtain ⟨mem2, tr, hrun, hp, _⟩ := getIDLoop_exhaust o.iters maxAttempts 0 mem [.listValues]
      (fun j hj => by rw [Nat.zero_add]; exact hlost j hj)
    have hfull : getID label mem o = ⟨0, some .unableToAllocateID, mem2, [StoreOp.listValues] ++ tr⟩ := by
      rw [getID_runs_loop label mem o hal hdisc, hrun]
    rw [hfull]
    exact ⟨rfl, rfl, by simp [List.countP_append, isPutOp, hp]⟩

/-- Witness for C3: the fully contended run — every write loses — ends
with `errUnableToAllocateID`, id 0 and 11 conditional writes. -/
theorem getID_attempt_bound_witness :
    (getID "n" ⟨false, 0⟩ ⟨.ok [], fun _ => ⟨.ok [], .ok false⟩⟩).id = 0 ∧
    (getID "n" ⟨false, 0⟩ ⟨.ok [], fun _ => ⟨.ok [], .ok false⟩⟩).err = some .unableToAllocateID ∧
    (getID "n" ⟨false, 0⟩ ⟨.ok [], fun _ => ⟨.ok [], .ok false⟩⟩).ops.countP isPutOp = maxAttempts + 1 :=
  getID_attempt_bound.2 "n" ⟨false, 0⟩ _ rfl rfl (fun _ _ => ⟨⟨[], rfl⟩, rfl⟩)

/-! ### Claim C1: uniqueness across instances sharing one store -/

lemma storeGet_cons (a : Nat × Identifier) (t : Store) (k2 : Nat) :
    storeGet (a :: t) k2 = if a.1 = k2 then some a.2 else storeGet t k2 := by
  by_cases h : a.1 = k2
  · rw [if_pos h]
    unfold storeGet
    rw [List.find?_cons_of_pos _ (by simp [h])]
    rfl
  · rw [if_neg h]
    unfold storeGet
    rw [List.find?_cons_of_neg _ (by simp [h])]

lemma storeGet_del (st : Store) (k k2 : Nat) :
    storeGet (storeDel st k) k2 = if k2 = k then none else storeGet st k2 := by
  induction st with
  | nil => by_cases h : k2 = k <;> simp [storeDel, storeGet, h]
  | cons a t ih =>
    by_cases hhead : a.1 = k
    · have hdel : storeDel (a :: t) k = storeDel t k := by
        simp [storeDel, List.filter_cons, hhead]
      rw [hdel, ih]
      by_cases h2 : k2 = k
      · rw [if_pos h2, if_pos h2]
      · rw [if_neg h2, if_neg h2, storeGet_cons, if_neg (by omega)]
    · have hdel : storeDel (a :: t) k = a :: storeDel t k := by
        simp [storeDel, List.filter_cons, hhead]
      rw [hdel, storeGet_cons, storeGet_cons, ih]
      by_cases hk2 : a.1 = k2
      · rw [if_pos hk2, if_pos hk2, if_neg (by omega)]
      · rw [if_neg hk2, if_neg hk2]

lemma labels_set (ns : List NodeState) :
    ∀ (i : Nat) (a : NodeState) (hi : i < ns.length),
    a.serviceLabel = (ns.get ⟨i, hi⟩).serviceLabel →
    (ns.set i a).map NodeState.serviceLabel = ns.map NodeState.serviceLabel := by
  induction ns with
  | nil => intro i a hi; exact absurd hi (by simp)
  | cons h t ih =>
    intro i a hi hl
    cases i with
    | zero =>
      show a.serviceLabel :: t.map NodeState.serviceLabel =
        h.serviceLabel :: t.map NodeState.serviceLabel
      rw [hl]
      rfl
    | succ i =>
      show h.serviceLabel :: (t.set i a).map NodeState.serviceLabel =
        h.serviceLabel :: t.map NodeState.serviceLabel
      rw [ih i a (by simpa using hi) hl]

lemma nodes_get_set_self (ns : List NodeState) (i : Nat) (a : NodeState)
    (h2 : i < (ns.set i a).length) : (ns.set i a).get ⟨i, h2⟩ = a := by
  simp [List.get_eq_getElem, List.getElem_set_self]

lemma nodes_get_set_ne (ns : List NodeState) (i j : Nat) (a : NodeState) (hne : i ≠ j)
    (h2 : j < (ns.set i a).length) (hj : j < ns.length) :
    (ns.set i a).get ⟨j, h2⟩ = ns.get ⟨j, hj⟩ := by
  simp [List.get_eq_getElem, List.getElem_set_ne hne]

lemma labels_distinct_nodes (labels : List String) (hdist : labels.Pairwise (· ≠ ·))
    (ns : List NodeState) (hlab : ns.map NodeState.serviceLabel = labels)
    (i j : Nat) (hi : i < ns.length) (hj : j < ns.length) (hij : i ≠ j) :
    (ns.get ⟨i, hi⟩).serviceLabel ≠ (ns.get ⟨j, hj⟩).serviceLabel := by
  subst hlab
  rw [List.pairwise_map, List.pairwise_iff_getElem] at hdist
  rcases Nat.lt_or_ge i j with h | h
  · have := hdist i j hi hj h
    simpa [List.get_eq_getElem] using this
  · have := hdist j i hj hi (by omega)
    simp only [List.get_eq_getElem]
    exact fun he => this he.symm

lemma sysInv_init (labels : List String) : SysInv labels (initSystem labels) := by
  refine ⟨by simp [initSystem, Function.comp_def], fun k v h => ?wf, fun i hi h => ?inv⟩
  · simp [storeGet, List.find?] at h
  · have hfalse : ((initSystem labels).nodes.get ⟨i, hi⟩).allocated = false := by
      simp [initSystem, List.get_eq_getElem]
    exact absurd (hfalse.symm.trans h) (by decide)

lemma sysInv_step (labels : List String) (hdist : labels.Pairwise (· ≠ ·)) (s t : System)
    (hinv : SysInv labels s) (hstep : Step s t) : SysInv labels t := by
  cases hstep with
  | discover ns st i hi k v hunalloc hlook howner =>
    simp only [SysInv, StoreWf, AllocInv] at hinv ⊢
    obtain ⟨hlab, hwf, halloc⟩ := hinv
    refine ⟨(labels_set ns i ⟨(ns.get ⟨i, hi⟩).serviceLabel, true, v.id⟩ hi rfl).trans hlab,
      hwf, ?_⟩
    intro j hj hallocj
    have hj0 : j < ns.length := by simpa using hj
    by_cases hij : i = j
    · subst hij
      rw [nodes_get_set_self ns i _ hj]
      show storeGet st v.id = some ⟨(ns.get ⟨i, hi⟩).serviceLabel, v.id⟩
      have hvk : v.id = k := hwf k v hlook
      subst hvk
      rw [hlook, ← howner]
    · rw [nodes_get_set_ne ns i j _ hij hj hj0] at hallocj ⊢
      exact halloc j hj0 hallocj
  | recompute ns st i hi cand hunalloc =>
    simp only [SysInv, StoreWf, AllocInv] at hinv ⊢
    obtain ⟨hlab, hwf, halloc⟩ := hinv
    refine ⟨(labels_set ns i ⟨(ns.get ⟨i, hi⟩).serviceLabel, false, cand⟩ hi rfl).trans hlab,
      hwf, ?_⟩
    intro j hj hallocj
    have hj0 : j < ns.length := by simpa using hj
    by_cases hij : i = j
    · subst hij
      rw [nodes_get_set_self ns i _ hj] at hallocj
      simp at hallocj
    · rw [nodes_get_set_ne ns i j _ hij hj hj0] at hallocj ⊢
      exact halloc j hj0 hallocj
  | writeWin ns st i hi cand hunalloc habsent =>
    simp only [SysInv, StoreWf, AllocInv] at hinv ⊢
    obtain ⟨hlab, hwf, halloc⟩ := hinv
    refine ⟨(labels_set ns i ⟨(ns.get ⟨i, hi⟩).serviceLabel, true, cand⟩ hi rfl).trans hlab,
      ?_, ?_⟩
    · intro k2 v2 h2
      rw [show storePut st cand ⟨(ns.get ⟨i, hi⟩).serviceLabel, cand⟩ =
          ((cand, ⟨(ns.get ⟨i, hi⟩).serviceLabel, cand⟩) : Nat × Identifier) :: st from rfl,
        storeGet_cons] at h2
      by_cases hc : cand = k2
      · rw [if_pos hc] at h2
        injection h2 with h3
        rw [← h3, ← hc]
      · rw [if_neg hc] at h2
        exact hwf k2 v2 h2
    · intro j hj hallocj
      have hj0 : j < ns.length := by simpa using hj
      by_cases hij : i = j
      · subst hij
        rw [nodes_get_set_self ns i _ hj]
        show storeGet (storePut st cand ⟨(ns.get ⟨i, hi⟩).serviceLabel, cand⟩) cand =
          some ⟨(ns.get ⟨i, hi⟩).serviceLabel, cand⟩
        rw [show storePut st cand ⟨(ns.get ⟨i, hi⟩).serviceLabel, cand⟩ =
            ((cand, ⟨(ns.get ⟨i, hi⟩).serviceLabel, cand⟩) : Nat × Identifier) :: st from rfl,
          storeGet_cons, if_pos rfl]
      · rw [nodes_get_set_ne ns i j _ hij hj hj0] at hallocj ⊢
        have hold := halloc j hj0 hallocj
        have hne : cand ≠ (ns.get ⟨j, hj0⟩).ID := by
          intro hc
          rw [← hc] at hold
          exact Option.noConfusion (habsent.symm.trans hold)
        rw [show storePut st cand ⟨(ns.get ⟨i, hi⟩).serviceLabel, cand⟩ =
            ((cand, ⟨(ns.get ⟨i, hi⟩).serviceLabel, cand⟩) : Nat × Identifier) :: st from rfl,
          storeGet_cons, if_neg hne]
        exact hold
  | release ns st i hi hallocold =>
    simp only [SysInv, StoreWf, AllocInv] at hinv ⊢
    obtain ⟨hlab, hwf, halloc⟩ := hinv
    refine ⟨(labels_set ns i ⟨(ns.get ⟨i, hi⟩).serviceLabel, false, (ns.get ⟨i, hi⟩).ID⟩ hi
        rfl).trans hlab, ?_, ?_⟩
    · intro k2 v2 h2
      rw [storeGet_del] at h2
      by_cases hk : k2 = (ns.get ⟨i, hi⟩).ID
      · rw [if_pos hk] at h2
        exact Option.noConfusion h2
      · rw [if_neg hk] at h2
        exact hwf k2 v2 h2
    · intro j hj hallocj
      have hj0 : j < ns.length := by simpa using hj
      by_cases hij : i = j
      · subst hij
        rw [nodes_get_set_self ns i _ hj] at hallocj
        simp at hallocj
      · rw [nodes_get_set_ne ns i j _ hij hj hj0] at hallocj ⊢
        have hold := halloc j hj0 hallocj
        have hiold := halloc i hi hallocold
        have hne : (ns.get ⟨j, hj0⟩).ID ≠ (ns.get ⟨i, hi⟩).ID := by
          intro hc
          rw [hc] at hold
          have h3 := hiold.symm.trans hold
          injection h3 with h4
          injection h4 with hname _
          exact labels_distinct_nodes labels hdist ns hlab i j hi hj0 hij hname
        rw [storeGet_del, if_neg hne]
        exact hold

lemma sysInv_reachable (labels : List String) (hdist : labels.Pairwise (· ≠ ·))
    (sys : System) (h : Reachable (initSystem labels) sys) : SysInv labels sys := by
  unfold Reachable at h
  induction h with
  | refl => exact sysInv_init labels
  | tail hsteps hstep ih => exact sysInv_step labels hdist _ _ ih hstep

/-- Claim C1: in every state reachable by a system of allocator
instances sharing one store with an atomic create-if-absent write, no
two instances with distinct service labels are simultaneously
allocated with the same `ID` — so N concurrent acquisitions by N
distinctly-labelled instances end up holding N distinct identifiers. -/
theorem getID_unique_across_nodes (labels : List String) (hdist : labels.Pairwise (· ≠ ·))
    (sys : System) (hreach : Reachable (initSystem labels) sys)
    (i j : Nat) (hi : i < sys.nodes.length) (hj : j < sys.nodes.length) (hij : i ≠ j)
    (hai : (sys.nodes.get ⟨i, hi⟩).allocated = true)
    (haj : (sys.nodes.get ⟨j, hj⟩).allocated = true) :
    (sys.nodes.get ⟨i, hi⟩).ID ≠ (sys.nodes.get ⟨j, hj⟩).ID := by
  obtain ⟨hlab, hwf, halloc⟩ := sysInv_reachable labels hdist sys hreach
  intro heq
  have h1 := halloc i hi hai
  have h2 := halloc j hj haj
  rw [heq] at h1
  have h3 := h1.symm.trans h2
  injection h3 with h4
  injection h4 with hname _
  exact labels_distinct_nodes labels hdist sys.nodes hlab i j hi hj hij hname

/-- The state reached after instances `"a"` and `"b"` have each won a
conditional write (of ids 1 and 2 respectively). -/
def sysPairW : System :=
  ⟨[⟨"a", true, 1⟩, ⟨"b", true, 2⟩], [(2, ⟨"b", 2⟩), (1, ⟨"a", 1⟩)]⟩

/-- Witness for C1: after two concurrent acquisitions by `"a"` and
`"b"`, the held identifiers differ. -/
theorem getID_unique_across_nodes_witness :
    (sysPairW.nodes.get ⟨0, by decide⟩).ID ≠ (sysPairW.nodes.get ⟨1, by decide⟩).ID := by
  have h1 : Step (initSystem ["a", "b"])
      ⟨[⟨"a", true, 1⟩, ⟨"b", false, 0⟩], [(1, ⟨"a", 1⟩)]⟩ :=
    Step.writeWin [⟨"a", false, 0⟩, ⟨"b", false, 0⟩] [] 0 (by decide) 1 rfl rfl
  have h2 : Step ⟨[⟨"a", true, 1⟩, ⟨"b", false, 0⟩], [(1, ⟨"a", 1⟩)]⟩ sysPairW :=
    Step.writeWin [⟨"a", true, 1⟩, ⟨"b", false, 0⟩] [(1, ⟨"a", 1⟩)] 1 (by decide) 2 rfl rfl
  exact getID_unique_across_nodes ["a", "b"] (by decide) sysPairW
    (Relation.ReflTransGen.tail (Relation.ReflTransGen.tail Relation.ReflTransGen.refl h1) h2)
    0 1 (by decide) (by decide) (by decide) rfl rfl
